import Mathlib

/-!
# Verification of the 1-Day-1-Commit core algorithms

A shallow embedding, in Lean 4, of the algorithmic core of the
1-Day-1-Commit server:

* the repository-suggestion scorer (`GitHubService.getSuggestion`,
  `src/server/src/services/github.ts`),
* the streak calculator (`GitHubService.getCurrentStreak`),
* the streak persistence ratchet (the `GET /today` handler in
  `src/server/src/routes/user.ts`),
* the reminder scheduler (`processReminders` / `checkUserAndNotify` in the
  cron job module).

JavaScript machine integers and dates are modelled with `Int` (milliseconds
since the Unix epoch for instants, whole days since the epoch for calendar
dates); JS floating-point arithmetic on scores is modelled with `Rat`;
`Array.prototype.sort` (a stable sort under a consistent comparator, per
ES2019) is modelled with `List.insertionSort`, which is stable and therefore
extensionally identical to any other stable sort with the same comparator.
-/

/-- One day in milliseconds, the constant `1000 * 60 * 60 * 24` of the source. -/
def msPerDay : Int := 86400000

/-! ## Suggestion scorer (`GitHubService.getSuggestion`) -/

/-- The fields of the GitHub `Repo` record that the scorer reads
(`interface Repo` in `github.ts`).  `pushed_at` is the parsed timestamp of
the ISO `pushed_at` string, in epoch milliseconds. -/
structure Repo where
  id : Int
  name : String
  full_name : String
  html_url : String
  pushed_at : Int
  open_issues_count : Int
  deriving Repr, DecidableEq

/-- A user-authored repo note: `{ priority?: number; difficulty?: number }`. -/
structure RepoNote where
  priority : Option Int
  difficulty : Option Int
  deriving Repr, DecidableEq

/-- The record returned by `getSuggestion`: the repo spread together with
`daysSinceLastPush` and `score` (`{ ...repo, daysSinceLastPush, score }`). -/
structure ScoredRepo where
  repo : Repo
  daysSinceLastPush : Int
  score : Rat
  deriving Repr, DecidableEq

/-- The intermediate `{ repo, score }` element of `scoredRepos`. -/
structure ScoredEntry where
  repo : ScoredRepo
  score : Rat
  deriving Repr, DecidableEq

/-- JS `x || 3` on a possibly-missing numeric field: `undefined` and `0`
are falsy and give the default `3`. -/
def orDefault3 : Option Int → Int
  | none => 3
  | some v => if v = 0 then 3 else v

/-- The body of the `eligibleRepos.map` callback in `getSuggestion`:
computes `daysSinceLastPush` and the weighted score of one repo.
`r` is the value drawn by `Math.random()` for this repo. -/
def scoreRepo (repo : Repo) (note : Option RepoNote) (now : Int) (r : Rat) : ScoredEntry :=
  let daysSinceLastPush : Int := (now - repo.pushed_at).fdiv msPerDay
  let priority : Int := orDefault3 (note.bind (·.priority))
  let difficulty : Int := orDefault3 (note.bind (·.difficulty))
  let dayScore : Rat := min ((daysSinceLastPush : Rat) / 365) 1 * 100 * (3 / 10)
  let issueScore : Rat := min ((repo.open_issues_count : Rat) / 50) 1 * 100 * (1 / 5)
  let priorityScore : Rat := ((priority : Rat) / 5) * 100 * (1 / 4)
  let difficultyScore : Rat := (((6 - difficulty : Int) : Rat) / 5) * 100 * (3 / 20)
  let randomScore : Rat := r * 100 * (1 / 10)
  let score := dayScore + issueScore + priorityScore + difficultyScore + randomScore
  { repo := { repo := repo, daysSinceLastPush := daysSinceLastPush, score := score }
    score := score }

/-- `repos.filter(repo => !excludedRepos.includes(repo.full_name))`. -/
def eligibleReposOf (repos : List Repo) (excludedRepos : List String) : List Repo :=
  repos.filter (fun repo => !(excludedRepos.contains repo.full_name))

/-- The recursion underlying `eligibleRepos.map(...)`: apply `scoreRepo` to
each repo in order, the repo at offset `j` receiving the draw `rand (i + j)`. -/
def scoreMapFrom (repoNotes : String → Option RepoNote) (now : Int) (rand : Nat → Rat) :
    Nat → List Repo → List ScoredEntry
  | _, [] => []
  | i, repo :: rest =>
    scoreRepo repo (repoNotes repo.full_name) now (rand i) ::
      scoreMapFrom repoNotes now rand (i + 1) rest

/-- `eligibleRepos.map(...)`, with the successive `Math.random()` draws made
explicit as a function `rand` of the position in `eligibleRepos`. -/
def scoredReposOf (eligible : List Repo) (repoNotes : String → Option RepoNote)
    (now : Int) (rand : Nat → Rat) : List ScoredEntry :=
  scoreMapFrom repoNotes now rand 0 eligible

/-- `GitHubService.getSuggestion` (`github.ts`): filter out excluded repos,
return `null` on an empty eligible set, otherwise score every eligible repo,
sort by score descending (`sort((a, b) => b.score - a.score)`, a stable sort)
and return the top element's `repo`. -/
def getSuggestion (repos : List Repo) (excludedRepos : List String)
    (repoNotes : String → Option RepoNote) (now : Int) (rand : Nat → Rat) :
    Option ScoredRepo :=
  let eligibleRepos := eligibleReposOf repos excludedRepos
  if eligibleRepos.isEmpty then none
  else
    let scoredRepos := scoredReposOf eligibleRepos repoNotes now rand
    let sorted := scoredRepos.insertionSort (fun a b => b.score ≤ a.score)
    sorted.head?.map (·.repo)

/-! ## Streak calculator (`GitHubService.getCurrentStreak`) -/

/-- `interface ContributionDay { date: string; count: number }`.  The
`YYYY-MM-DD` date string is modelled by its day index (days since the Unix
epoch, the value `new Date(dateStr)` denotes divided by one day); equality of
well-formed date strings coincides with equality of day indices. -/
structure ContributionDay where
  date : Int
  count : Int
  deriving Repr, DecidableEq

/-- `new Date(day.date).getTime()`: UTC midnight of the day, in epoch ms. -/
def dateTime (d : ContributionDay) : Int := d.date * msPerDay

/-- `Math.floor((aTime - bTime) / 86400000)` for two parsed dates. -/
def diffDaysOf (a b : ContributionDay) : Int :=
  (dateTime a - dateTime b).fdiv msPerDay

/-- The current-streak loop of `getCurrentStreak` from its second iteration
on: `prev` is `sorted[i - 1]`, `cs` the accumulated `currentStreak`.  A
counting day consecutive with the previous element increments the streak; a
counting day with a date gap, or a zero day once the streak has started,
sets `streakBroken` (modelled by returning `cs`). -/
def csAux (prev : ContributionDay) (cs : Nat) : List ContributionDay → Nat
  | [] => cs
  | day :: rest =>
    if 0 < day.count then
      if diffDaysOf prev day = 1 then csAux day (cs + 1) rest else cs
    else
      if 0 < cs then cs else csAux day cs rest

/-- The current-streak scan of `getCurrentStreak`, on the date-descending
sorted contributions.  The first iteration (`i === 0`) starts the streak at 1
only when the most recent day counts and is today or yesterday; when the
first day has `count = 0` both source branches (`date === today` with its
`continue`, and the vacuous `currentStreak > 0` check) leave the streak at 0
and move to the next element. -/
def currentStreakOf (sorted : List ContributionDay) (today yesterday : Int) : Nat :=
  match sorted with
  | [] => 0
  | day :: rest =>
    if 0 < day.count then
      csAux day (if day.date = today ∨ day.date = yesterday then 1 else 0) rest
    else
      csAux day 0 rest

/-- The longest-streak loop of `getCurrentStreak` from its second iteration
on: `prev` is `chronological[i - 1]`, `temp` the running `tempStreak`,
`longest` the `longestStreak` accumulator. -/
def lsAux (prev : ContributionDay) (temp longest : Nat) : List ContributionDay → Nat
  | [] => longest
  | day :: rest =>
    if 0 < day.count then
      let t := if diffDaysOf day prev = 1 ∧ 0 < prev.count then temp + 1 else 1
      lsAux day t (max longest t) rest
    else
      lsAux day 0 longest rest

/-- The longest-streak scan of `getCurrentStreak`, on the chronologically
sorted contributions. -/
def longestStreakOf : List ContributionDay → Nat
  | [] => 0
  | day :: rest =>
    if 0 < day.count then lsAux day 1 (max 0 1) rest
    else lsAux day 0 0 rest

/-- The streak record `{ currentStreak, longestStreak }`. -/
structure StreakResult where
  currentStreak : Nat
  longestStreak : Nat
  deriving Repr, DecidableEq

/-- The body of `getCurrentStreak` after `getContributions` has returned:
sort a copy of the contributions by date descending
(`sort((a, b) => new Date(b.date).getTime() - new Date(a.date).getTime())`)
for the current streak, chronologically for the longest streak.  `today` and
`yesterday` are the day indices of `new Date().toISOString()` and
`new Date(Date.now() - 86400000).toISOString()`. -/
def computeStreaks (contributions : List ContributionDay) (nowMs : Int) : StreakResult :=
  let sorted := contributions.insertionSort (fun a b => dateTime b ≤ dateTime a)
  let today := nowMs.fdiv msPerDay
  let yesterday := (nowMs - msPerDay).fdiv msPerDay
  let currentStreak := currentStreakOf sorted today yesterday
  let chronological := contributions.insertionSort (fun a b => dateTime a ≤ dateTime b)
  let longestStreak := longestStreakOf chronological
  { currentStreak := currentStreak, longestStreak := longestStreak }

/-- `getContributions`: the GraphQL calendar when it succeeds, otherwise the
events-API fallback grid, otherwise `[]` (the inner `catch` returns an empty
list rather than throwing).  The two upstream fetches are abstracted as
`Except` values. -/
def getContributionsResult (primary fallback : Except Unit (List ContributionDay)) :
    List ContributionDay :=
  match primary with
  | .ok days => days
  | .error _ =>
    match fallback with
    | .ok days => days
    | .error _ => []

/-- `getCurrentStreak`: fetch the contributions (with their internal
fallbacks) and run the two streak scans.  Total — the `try/catch` around the
body means no failure ever propagates to the caller. -/
def getCurrentStreakSafe (primary fallback : Except Unit (List ContributionDay))
    (nowMs : Int) : StreakResult :=
  computeStreaks (getContributionsResult primary fallback) nowMs

/-! ## Streak persistence (`GET /today` handler, `routes/user.ts`) -/

/-- A row of the `streaks` table.  `last_commit_date` is the stored day
index, `none` for SQL `NULL`. -/
structure StreakRow where
  current_streak : Nat
  longest_streak : Nat
  last_commit_date : Option Int
  deriving Repr, DecidableEq

/-- The streak-cache update of the `GET /today` handler: with an existing
row, `UPDATE` with `current_streak = streakData.currentStreak` and
`longest_streak = Math.max(streakData.longestStreak, existing.longest_streak || 0)`
(the `|| 0` guards a null column; the stored value is never null here);
without one, `INSERT` the freshly computed values. -/
def updateStreakRow (existing : Option StreakRow) (streakData : StreakResult)
    (hasCommitted : Bool) (today : Int) : StreakRow :=
  match existing with
  | some e =>
    { current_streak := streakData.currentStreak
      longest_streak := max streakData.longestStreak e.longest_streak
      last_commit_date := if hasCommitted then some today else e.last_commit_date }
  | none =>
    { current_streak := streakData.currentStreak
      longest_streak := streakData.longestStreak
      last_commit_date := if hasCommitted then some today else none }

/-! ## Reminder scheduler (`processReminders` / `checkUserAndNotify`) -/

/-- A `reminder_times` row joined with the user's timezone. -/
structure Reminder where
  user_id : String
  time : String
  enabled : Int
  timezone : String
  deriving Repr, DecidableEq

/-- Two-digit zero-padded decimal rendering of a (non-negative) number, the
`2-digit` field format of `toLocaleTimeString`. -/
def pad2 (n : Int) : String :=
  ⟨[Nat.digitChar (n.toNat / 10 % 10), Nat.digitChar (n.toNat % 10)]⟩

/-- `now.toLocaleTimeString('en-GB', { timeZone, hour: '2-digit',
minute: '2-digit' })`: render an instant in a timezone as zero-padded 24-hour
`HH:MM`.  The IANA zone is modelled by its UTC-offset function
`offsetMin : Int → Int` (minutes east of UTC at a given instant, so DST is
representable). -/
def renderHHMM (offsetMin : Int → Int) (nowMs : Int) : String :=
  let localMin := nowMs.fdiv 60000 + offsetMin nowMs
  let minuteOfDay := localMin.emod 1440
  pad2 (minuteOfDay / 60) ++ ":" ++ pad2 (minuteOfDay % 60)

/-- `parseInt(time.split(':')[0])`: JS `parseInt` reads the longest digit
prefix and yields `NaN` (here `none`) when there is none.  Since `parseInt`
already stops at the first non-digit, splitting at `':'` first does not
change the result, so the model parses the digit prefix of the whole
string. -/
def jsParseIntHead (s : String) : Option Nat :=
  match s.data.takeWhile Char.isDigit with
  | [] => none
  | ds => some (ds.foldl (fun acc c => 10 * acc + (c.toNat - 48)) 0)

/-- `hour < 12 ? 'morning' : hour < 17 ? 'afternoon' : 'evening'` applied to
`parseInt(reminder.time.split(':')[0])`; the `NaN` comparisons are all false,
giving `'evening'`. -/
def timeOfDayOf (time : String) : String :=
  match jsParseIntHead time with
  | none => "evening"
  | some hour => if hour < 12 then "morning" else if hour < 17 then "afternoon" else "evening"

/-- `reminder.timezone || 'UTC'`: an empty (falsy) zone string falls back to
UTC. -/
def zoneOf (r : Reminder) : String :=
  if r.timezone = "" then "UTC" else r.timezone

/-- `processReminders` (cron job module): fetch all enabled reminders
(`WHERE r.enabled = 1`), render the current instant in each reminder's
timezone, and on exact string equality with the configured time classify the
hour and trigger `checkUserAndNotify`.  The value is the list of triggered
`(reminder, timeOfDay)` notification attempts; `tzdb` maps an IANA zone name
to its offset function. -/
def processRemindersOn (reminders : List Reminder) (tzdb : String → Int → Int)
    (nowMs : Int) : List (Reminder × String) :=
  (reminders.filter (fun r => r.enabled = 1)).filterMap (fun r =>
    let userLocalTime := renderHHMM (tzdb (zoneOf r)) nowMs
    if userLocalTime = r.time then some (r, timeOfDayOf r.time) else none)

/-! ## Notification gating (`checkUserAndNotify`) -/

/-- The `users` row read by `checkUserAndNotify`. -/
structure UserRow where
  id : String
  github_username : String
  github_token : String
  email : String
  deriving Repr, DecidableEq

/-- The `preferences` row read by `checkUserAndNotify`. -/
structure PrefsRow where
  email_enabled : Int
  push_enabled : Int
  weekends_off : Int
  email_when_committed : Int
  deriving Repr, DecidableEq

/-- A notification attempt: a `notificationService.sendEmail` call or a
`sendPushNotification` call, with the arguments passed. -/
inductive Attempt where
  | email (toAddress : String) (currentStreak : Nat) (emailType : String)
      (suggestedRepo : Option String)
  | push (userId title body : String) (url : Option String)
  deriving Repr, DecidableEq

/-- `new Date().getDay()` under a local-clock offset of `offsetMin` minutes:
day of week, 0 = Sunday (epoch day 0, 1970-01-01, was a Thursday = 4). -/
def jsGetDay (offsetMin nowMs : Int) : Int :=
  ((nowMs + offsetMin * 60000).fdiv msPerDay + 4).emod 7

/-- The environment read by one `checkUserAndNotify` call: the database rows,
the GitHub responses, the wall clock and the server's local-clock offset
(`new Date().getDay()` is evaluated on the server's clock). -/
structure NotifyEnv where
  user : Option UserRow
  prefs : Option PrefsRow
  hasCommitted : Bool
  cachedStreak : Option Nat
  repos : List Repo
  excludedRepos : List String
  rand : Nat → Rat
  nowMs : Int
  serverOffsetMin : Int

/-- `timeOfDay === 'morning' ? 'morning' : timeOfDay === 'evening' ?
'evening' : 'afternoon'`. -/
def emailTypeOf (timeOfDay : String) : String :=
  if timeOfDay = "morning" then "morning"
  else if timeOfDay = "evening" then "evening" else "afternoon"

/-- `checkUserAndNotify` (cron job module): missing user or preferences
abort; `weekends_off` with a server-local Saturday/Sunday aborts; a user who
has already committed and has not opted into committed-day emails aborts;
otherwise a suggestion is computed (only when not committed) and an email
and/or push attempt is made per the enabled channels (`user.email` must be
truthy, i.e. non-empty, for email). -/
def checkUserAndNotify (env : NotifyEnv) (timeOfDay : String) : List Attempt :=
  match env.user, env.prefs with
  | some user, some prefs =>
    if prefs.weekends_off ≠ 0 ∧
        (jsGetDay env.serverOffsetMin env.nowMs = 0 ∨ jsGetDay env.serverOffsetMin env.nowMs = 6) then
      []
    else if env.hasCommitted ∧ prefs.email_when_committed = 0 then
      []
    else
      let currentStreak := env.cachedStreak.getD 0
      let suggestion :=
        if env.hasCommitted then none
        else getSuggestion env.repos env.excludedRepos (fun _ => none) env.nowMs env.rand
      let emailAttempts :=
        if prefs.email_enabled ≠ 0 ∧ user.email ≠ "" then
          [Attempt.email user.email currentStreak (emailTypeOf timeOfDay)
            (suggestion.map (fun s => s.repo.full_name))]
        else []
      let pushAttempts :=
        if prefs.push_enabled ≠ 0 then
          let title :=
            if 0 < currentStreak then
              "🔥 Don't break your " ++ toString currentStreak ++ "-day streak!"
            else "📝 Time to commit"
          let body :=
            match suggestion with
            | some s => "Try working on " ++ s.repo.name
            | none => "Make your daily commit"
          [Attempt.push user.id title body (suggestion.map (fun s => s.repo.html_url))]
        else []
      emailAttempts ++ pushAttempts
  | _, _ => []

/-! ## Helper lemmas: the scored list -/

theorem scoreMapFrom_length (repoNotes : String → Option RepoNote) (now : Int)
    (rand : Nat → Rat) (i : Nat) (l : List Repo) :
    (scoreMapFrom repoNotes now rand i l).length = l.length := by
  induction l generalizing i with
  | nil => rfl
  | cons r rest ih => simp [scoreMapFrom, ih]

theorem mem_scoreMapFrom {repoNotes : String → Option RepoNote} {now : Int}
    {rand : Nat → Rat} {i : Nat} {l : List Repo} {e : ScoredEntry} :
    e ∈ scoreMapFrom repoNotes now rand i l ↔
      ∃ j repo, l[j]? = some repo ∧
        e = scoreRepo repo (repoNotes repo.full_name) now (rand (i + j)) := by
  induction l generalizing i with
  | nil => simp [scoreMapFrom]
  | cons r rest ih =>
    simp only [scoreMapFrom, List.mem_cons, ih]
    constructor
    · rintro (rfl | ⟨j, repo, hj, rfl⟩)
      · exact ⟨0, r, by simp, by simp⟩
      · exact ⟨j + 1, repo, by simpa using hj, by rw [Nat.add_comm j 1, ← Nat.add_assoc]⟩
    · rintro ⟨j, repo, hj, rfl⟩
      cases j with
      | zero =>
        left
        simp only [List.getElem?_cons_zero, Option.some.injEq] at hj
        subst hj; simp
      | succ j' =>
        right
        refine ⟨j', repo, by simpa using hj, ?_⟩
        rw [Nat.add_comm j' 1, ← Nat.add_assoc]

theorem mem_scoredReposOf {eligible : List Repo} {repoNotes : String → Option RepoNote}
    {now : Int} {rand : Nat → Rat} {e : ScoredEntry} :
    e ∈ scoredReposOf eligible repoNotes now rand ↔
      ∃ j repo, eligible[j]? = some repo ∧
        e = scoreRepo repo (repoNotes repo.full_name) now (rand j) := by
  simpa using @mem_scoreMapFrom repoNotes now rand 0 eligible e

/-! ## Claim theorems: suggestion scorer -/

/-- C1.  For a non-empty eligible set, `getSuggestion` returns the
highest-scoring repository: the returned record is the `scoreRepo` image
(weighted day/issue/priority/difficulty/random score, carrying
`daysSinceLastPush` and `score`) of some eligible repo with its own random
draw, and its score is maximal among all eligible repos' scores. -/
theorem getSuggestion_max (repos : List Repo) (excludedRepos : List String)
    (repoNotes : String → Option RepoNote) (now : Int) (rand : Nat → Rat)
    (h : eligibleReposOf repos excludedRepos ≠ []) :
    ∃ (i : Nat) (repo : Repo) (e : ScoredEntry),
      (eligibleReposOf repos excludedRepos)[i]? = some repo ∧
      e = scoreRepo repo (repoNotes repo.full_name) now (rand i) ∧
      getSuggestion repos excludedRepos repoNotes now rand = some e.repo ∧
      ∀ j repo', (eligibleReposOf repos excludedRepos)[j]? = some repo' →
        (scoreRepo repo' (repoNotes repo'.full_name) now (rand j)).score ≤ e.score := by
  classical
  set el := eligibleReposOf repos excludedRepos with hel
  set scored := scoredReposOf el repoNotes now rand with hscored
  haveI htot : IsTotal ScoredEntry (fun a b => b.score ≤ a.score) :=
    ⟨fun a b => le_total b.score a.score⟩
  haveI htrans : IsTrans ScoredEntry (fun a b => b.score ≤ a.score) :=
    ⟨fun _ _ _ h1 h2 => le_trans h2 h1⟩
  have hperm := List.perm_insertionSort (fun a b : ScoredEntry => b.score ≤ a.score) scored
  have hsortedlen : (scored.insertionSort (fun a b => b.score ≤ a.score)).length = el.length := by
    rw [hperm.length_eq, hscored, scoredReposOf, scoreMapFrom_length]
  have hlen : el.length ≠ 0 := by
    simpa [List.length_eq_zero] using h
  obtain ⟨top, tail, hcons⟩ :
      ∃ top tail, scored.insertionSort (fun a b => b.score ≤ a.score) = top :: tail := by
    cases hs : scored.insertionSort (fun a b => b.score ≤ a.score) with
    | nil => exact absurd (by rw [← hsortedlen, hs]; rfl) (Ne.symm hlen)
    | cons a t => exact ⟨a, t, rfl⟩
  have htop_mem : top ∈ scored := hperm.mem_iff.mp (by rw [hcons]; exact List.mem_cons_self _ _)
  obtain ⟨i, repo, hi, htopeq⟩ := mem_scoredReposOf.mp htop_mem
  refine ⟨i, repo, top, hi, htopeq, ?_, ?_⟩
  · have hne : el.isEmpty = false := List.isEmpty_eq_false.mpr h
    simp only [getSuggestion, ← hel, hne, Bool.false_eq_true, if_false, ← hscored, hcons]
    rfl
  · intro j repo' hj
    have hmem : scoreRepo repo' (repoNotes repo'.full_name) now (rand j) ∈ scored :=
      mem_scoredReposOf.mpr ⟨j, repo', hj, rfl⟩
    have hmem' : scoreRepo repo' (repoNotes repo'.full_name) now (rand j) ∈ top :: tail := by
      rw [← hcons]; exact hperm.mem_iff.mpr hmem
    rcases List.mem_cons.mp hmem' with heq | htail
    · rw [heq]
    · have hsorted := List.sorted_insertionSort (fun a b : ScoredEntry => b.score ≤ a.score) scored
      rw [hcons] at hsorted
      exact List.rel_of_sorted_cons hsorted _ htail

/-- C1 witness: a concrete one-repo instance. -/
theorem getSuggestion_max_witness :
    eligibleReposOf [⟨1, "a", "o/a", "u", 0, 0⟩] [] ≠ [] ∧
    (∃ (i : Nat) (repo : Repo) (e : ScoredEntry),
      (eligibleReposOf [⟨1, "a", "o/a", "u", 0, 0⟩] [])[i]? = some repo ∧
      e = scoreRepo repo none 0 0 ∧
      getSuggestion [⟨1, "a", "o/a", "u", 0, 0⟩] [] (fun _ => none) 0 (fun _ => 0) =
        some e.repo ∧
      ∀ (j : Nat) (repo' : Repo),
        (eligibleReposOf [⟨1, "a", "o/a", "u", 0, 0⟩] [])[j]? = some repo' →
        (scoreRepo repo' none 0 0).score ≤ e.score) :=
  ⟨by decide, getSuggestion_max [⟨1, "a", "o/a", "u", 0, 0⟩] [] (fun _ => none) 0
    (fun _ => 0) (by decide)⟩

/-- C6.  `getSuggestion` returns `null` (and no error: the embedding is a
total function) exactly when the eligible set — the input repos minus the
excluded full names — is empty. -/
theorem getSuggestion_none_iff (repos : List Repo) (excludedRepos : List String)
    (repoNotes : String → Option RepoNote) (now : Int) (rand : Nat → Rat) :
    getSuggestion repos excludedRepos repoNotes now rand = none ↔
      eligibleReposOf repos excludedRepos = [] := by
  constructor
  · intro hnone
    by_contra hne
    obtain ⟨_, _, _, _, _, hsome, _⟩ :=
      getSuggestion_max repos excludedRepos repoNotes now rand hne
    rw [hnone] at hsome
    exact Option.noConfusion hsome
  · intro hempty
    simp [getSuggestion, hempty]

/-- C10.  Whatever the random draws, a returned suggestion is one of the
input repos and its `full_name` is not in the excluded list. -/
theorem getSuggestion_mem_eligible (repos : List Repo) (excludedRepos : List String)
    (repoNotes : String → Option RepoNote) (now : Int) (rand : Nat → Rat)
    (s : ScoredRepo) (h : getSuggestion repos excludedRepos repoNotes now rand = some s) :
    s.repo ∈ repos ∧ excludedRepos.contains s.repo.full_name = false := by
  obtain ⟨i, repo, e, hi, heq, hsome, _⟩ :=
    getSuggestion_max repos excludedRepos repoNotes now rand (by
      intro hempty
      rw [(getSuggestion_none_iff repos excludedRepos repoNotes now rand).mpr hempty] at h
      exact Option.noConfusion h)
  rw [h] at hsome
  have hs : s = e.repo := by simpa using hsome
  have hrepo : s.repo = repo := by rw [hs, heq]; rfl
  have hmem : repo ∈ eligibleReposOf repos excludedRepos := by
    have := List.getElem?_mem hi
    exact this
  rw [eligibleReposOf, List.mem_filter] at hmem
  refine ⟨hrepo ▸ hmem.1, ?_⟩
  have := hmem.2
  rw [hrepo]
  simpa using this

/-- C10 witness: the concrete one-repo instance returns that repo. -/
theorem getSuggestion_mem_eligible_witness :
    (scoreRepo ⟨1, "a", "o/a", "u", 0, 0⟩ none 0 0).repo.repo ∈
        [(⟨1, "a", "o/a", "u", 0, 0⟩ : Repo)] ∧
      List.contains [] (scoreRepo ⟨1, "a", "o/a", "u", 0, 0⟩ none 0 0).repo.repo.full_name
        = false :=
  getSuggestion_mem_eligible [⟨1, "a", "o/a", "u", 0, 0⟩] [] (fun _ => none) 0 (fun _ => 0)
    (scoreRepo ⟨1, "a", "o/a", "u", 0, 0⟩ none 0 0).repo rfl

/-! ## Claim theorems: streak calculator, concrete cases -/

/-- C2.  For contributions 2024-01-01 (count 1, day 19723), 2024-01-02
(count 1), 2024-01-03 (count 0) evaluated at 2024-01-03T10:00Z, the current
streak is 2: a zero-count "today" does not erase a streak ending
yesterday. -/
theorem currentStreak_today_empty_keeps_two :
    (computeStreaks [⟨19723, 1⟩, ⟨19724, 1⟩, ⟨19725, 0⟩]
      (19725 * 86400000 + 36000000)).currentStreak = 2 := by decide

/-- C3 (code bug witness).  For contributions 2024-01-04 (day 19726) and
2024-01-05 (day 19727), both count 1, evaluated at 2024-01-10 (day 19732):
the most recent counting day is five days old — neither today nor
yesterday — yet the scan returns a current streak of 1, not the 0 the
specification requires.  The `i === 0` branch of the source fails to mark
the streak broken when the most recent counting day is stale, so a later
consecutive pair still increments the streak. -/
theorem currentStreak_stale_run_not_zero :
    (computeStreaks [⟨19726, 1⟩, ⟨19727, 1⟩] (19732 * 86400000)).currentStreak = 1 ∧
      (19727 : Int) ≠ 19732 ∧ (19727 : Int) ≠ 19731 := by decide

/-! ## Claim theorems: streak persistence ratchet -/

theorem updateStreakRow_longest_le (e : StreakRow) (c : StreakResult)
    (hc : Bool) (t : Int) :
    e.longest_streak ≤ (updateStreakRow (some e) c hc t).longest_streak := by
  simp [updateStreakRow, Nat.le_max_right]

theorem foldl_updateStreakRow_mono (updates : List (StreakResult × Bool × Int))
    (e : StreakRow) :
    e.longest_streak ≤
      (updates.foldl (fun row u => updateStreakRow (some row) u.1 u.2.1 u.2.2)
        e).longest_streak := by
  induction updates generalizing e with
  | nil => exact Nat.le_refl _
  | cons u us ih =>
    exact Nat.le_trans (updateStreakRow_longest_le e u.1 u.2.1 u.2.2)
      (ih (updateStreakRow (some e) u.1 u.2.1 u.2.2))

/-- C5.  Updating an existing streak row persists
`max(computed.longestStreak, cached.longest_streak)`, so the persisted
longest streak never decreases, across one update or any sequence of
updates. -/
theorem updateStreakRow_ratchet (e : StreakRow) (c : StreakResult) (hc : Bool) (t : Int) :
    (updateStreakRow (some e) c hc t).longest_streak
        = max c.longestStreak e.longest_streak ∧
      e.longest_streak ≤ (updateStreakRow (some e) c hc t).longest_streak ∧
      ∀ updates : List (StreakResult × Bool × Int),
        e.longest_streak ≤
          (updates.foldl (fun row u => updateStreakRow (some row) u.1 u.2.1 u.2.2)
            e).longest_streak :=
  ⟨rfl, updateStreakRow_longest_le e c hc t, fun updates => foldl_updateStreakRow_mono updates e⟩

/-! ## Claim theorems: upstream failure handling -/

/-- C9 counterexample.  With both contribution sources down and a cached row
`{current_streak = 5, longest_streak = 7}`, the recomputed streaks are
`{0, 0}` — not the cached values — and the update writes `current_streak = 0`
over the cached 5, although this is not the first-ever computation.  The
claim that "streak values fall back to previously cached values" and are "0
only on the first-ever computation" is false for `current_streak`. -/
theorem getCurrentStreak_failure_clobbers_current :
    getCurrentStreakSafe (.error ()) (.error ()) 0 = ⟨0, 0⟩ ∧
      (updateStreakRow (some ⟨5, 7, none⟩)
        (getCurrentStreakSafe (.error ()) (.error ()) 0) false 0).current_streak = 0 ∧
      (0 : Nat) ≠ 5 := by decide

/-- C9 (amended).  When both the GraphQL calendar query and the events-API
fallback fail, the streak computation still returns (it is total, never
throwing to its caller) with `currentStreak = longestStreak = 0`; the
persisted `longest_streak` falls back to the cached value through the max
ratchet, but the persisted `current_streak` is set to 0 even when a cached
value exists. -/
theorem getCurrentStreak_failure_soft (nowMs : Int) (cache : StreakRow)
    (hc : Bool) (t : Int) :
    getCurrentStreakSafe (.error ()) (.error ()) nowMs = ⟨0, 0⟩ ∧
      (updateStreakRow (some cache) (getCurrentStreakSafe (.error ()) (.error ()) nowMs)
        hc t).longest_streak = cache.longest_streak ∧
      (updateStreakRow (some cache) (getCurrentStreakSafe (.error ()) (.error ()) nowMs)
        hc t).current_streak = 0 := by
  refine ⟨rfl, ?_, rfl⟩
  have h0 : getCurrentStreakSafe (.error ()) (.error ()) nowMs = ⟨0, 0⟩ := rfl
  rw [h0]
  simp [updateStreakRow]

/-! ## Helper lemmas: time rendering and parsing -/

theorem digitChar_isDigit {d : Nat} (hd : d < 10) : (Nat.digitChar d).isDigit = true := by
  interval_cases d <;> decide

theorem digitChar_toNat {d : Nat} (hd : d < 10) : (Nat.digitChar d).toNat = 48 + d := by
  interval_cases d <;> decide

theorem jsParseIntHead_render (h : Fin 24) (m : Fin 60) :
    jsParseIntHead (pad2 ((h : Nat) : Int) ++ ":" ++ pad2 ((m : Nat) : Int))
      = some (h : Nat) := by
  have htnh : (((h : Nat) : Int)).toNat = (h : Nat) := Int.toNat_natCast _
  have htnm : (((m : Nat) : Int)).toNat = (m : Nat) := Int.toNat_natCast _
  have hh10 : (h : Nat) / 10 % 10 = (h : Nat) / 10 :=
    Nat.mod_eq_of_lt (by omega)
  have hd1 : (Nat.digitChar ((h : Nat) / 10 % 10)).isDigit = true :=
    digitChar_isDigit (Nat.mod_lt _ (by omega))
  have hd2 : (Nat.digitChar ((h : Nat) % 10)).isDigit = true :=
    digitChar_isDigit (Nat.mod_lt _ (by omega))
  have hdata : (pad2 ((h : Nat) : Int) ++ ":" ++ pad2 ((m : Nat) : Int)).data
      = Nat.digitChar ((h : Nat) / 10 % 10) :: Nat.digitChar ((h : Nat) % 10) ::
          (':' : Char) :: (pad2 ((m : Nat) : Int)).data := by
    simp [pad2, htnh]
  rw [jsParseIntHead, hdata]
  rw [List.takeWhile_cons_of_pos hd1, List.takeWhile_cons_of_pos hd2,
    List.takeWhile_cons_of_neg (by decide)]
  simp only [List.foldl_cons, List.foldl_nil]
  rw [digitChar_toNat (Nat.mod_lt _ (by omega)), digitChar_toNat (Nat.mod_lt _ (by omega))]
  have := Nat.div_add_mod (h : Nat) 10
  congr 1
  omega

theorem timeOfDayOf_render (h : Fin 24) (m : Fin 60) :
    timeOfDayOf (pad2 ((h : Nat) : Int) ++ ":" ++ pad2 ((m : Nat) : Int))
      = if (h : Nat) < 12 then "morning"
        else if (h : Nat) < 17 then "afternoon" else "evening" := by
  rw [timeOfDayOf, jsParseIntHead_render]

theorem renderHHMM_shape (offset : Int → Int) (t : Int) :
    ∃ (hh : Fin 24) (mm : Fin 60),
      renderHHMM offset t = pad2 ((hh : Nat) : Int) ++ ":" ++ pad2 ((mm : Nat) : Int) ∧
      ((hh : Nat) : Int) = (t.fdiv 60000 + offset t).emod 1440 / 60 ∧
      ((mm : Nat) : Int) = (t.fdiv 60000 + offset t).emod 1440 % 60 := by
  set md := (t.fdiv 60000 + offset t).emod 1440 with hmd
  have hmd0 : 0 ≤ md := Int.emod_nonneg _ (by norm_num)
  have hmdlt : md < 1440 := Int.emod_lt_of_pos _ (by norm_num)
  have hh0 : 0 ≤ md / 60 := Int.ediv_nonneg hmd0 (by norm_num)
  have hhlt : md / 60 < 24 := by omega
  have hm0 : 0 ≤ md % 60 := Int.emod_nonneg _ (by norm_num)
  have hmlt : md % 60 < 60 := Int.emod_lt_of_pos _ (by norm_num)
  refine ⟨⟨(md / 60).toNat, by omega⟩, ⟨(md % 60).toNat, by omega⟩, ?_, by simp; omega, by simp; omega⟩
  have h1 : (((md / 60).toNat : Nat) : Int) = md / 60 := by simp; omega
  have h2 : (((md % 60).toNat : Nat) : Int) = md % 60 := by simp; omega
  rw [renderHHMM]
  simp only [← hmd, h1, h2]

/-! ## Claim theorems: reminder scheduler -/

/-- C7.  On a scheduler tick, an enabled reminder triggers exactly when the
instant rendered in its timezone as zero-padded 24-hour `HH:MM` equals its
configured time string (so an instant rendering one minute off triggers
nothing), and the triggered reminder is classified morning/afternoon/evening
by its hour (`< 12`, `< 17`, otherwise); every rendering is of the
zero-padded `HH:MM` shape with the local hour and minute. -/
theorem processReminders_fire_iff (reminders : List Reminder)
    (tzdb : String → Int → Int) (nowMs : Int) :
    (∀ (r : Reminder) (tod : String),
      (r, tod) ∈ processRemindersOn reminders tzdb nowMs ↔
        r ∈ reminders ∧ r.enabled = 1 ∧
          renderHHMM (tzdb (zoneOf r)) nowMs = r.time ∧ tod = timeOfDayOf r.time) ∧
    (∀ (h : Fin 24) (m : Fin 60),
      timeOfDayOf (pad2 ((h : Nat) : Int) ++ ":" ++ pad2 ((m : Nat) : Int))
        = if (h : Nat) < 12 then "morning"
          else if (h : Nat) < 17 then "afternoon" else "evening") ∧
    (∀ (offset : Int → Int) (t : Int),
      ∃ (hh : Fin 24) (mm : Fin 60),
        renderHHMM offset t = pad2 ((hh : Nat) : Int) ++ ":" ++ pad2 ((mm : Nat) : Int) ∧
        ((hh : Nat) : Int) = (t.fdiv 60000 + offset t).emod 1440 / 60 ∧
        ((mm : Nat) : Int) = (t.fdiv 60000 + offset t).emod 1440 % 60) := by
  refine ⟨?_, timeOfDayOf_render, renderHHMM_shape⟩
  intro r tod
  simp only [processRemindersOn, List.mem_filterMap, List.mem_filter,
    decide_eq_true_eq]
  constructor
  · rintro ⟨a, ⟨ha, hen⟩, hif⟩
    by_cases hr : renderHHMM (tzdb (zoneOf a)) nowMs = a.time
    · rw [if_pos hr] at hif
      have h1 : a = r := congrArg Prod.fst (Option.some.inj hif)
      have h2 : timeOfDayOf a.time = tod := congrArg Prod.snd (Option.some.inj hif)
      subst h1
      exact ⟨ha, hen, hr, h2.symm⟩
    · rw [if_neg hr] at hif
      exact Option.noConfusion hif
  · rintro ⟨hr, hen, hrender, rfl⟩
    exact ⟨r, ⟨hr, hen⟩, by rw [if_pos hrender]⟩

/-! ## Claim theorems: weekend skip -/

/-- C8 counterexample.  `checkUserAndNotify` evaluates the weekend skip with
`new Date().getDay()` — the server's local weekday — not the user's
timezone.  At 1970-01-02T23:00Z with a UTC server clock (offset 0) the
server-local weekday is Friday (5), while in the user's zone, UTC+13
(e.g. Pacific/Auckland, offset 780 minutes), it is already Saturday (6).
With `weekends_off = 1` set, the reminder still produces an email attempt,
refuting the claim that a Saturday in the user's timezone suppresses all
notification attempts. -/
theorem weekend_skip_uses_server_clock :
    jsGetDay 780 169200000 = 6 ∧
      checkUserAndNotify
        { user := some ⟨"u1", "alice", "tok", "alice@example.com"⟩
          prefs := some ⟨1, 0, 1, 0⟩
          hasCommitted := false
          cachedStreak := none
          repos := []
          excludedRepos := []
          rand := fun _ => 0
          nowMs := 169200000
          serverOffsetMin := 0 } "morning"
        = [Attempt.email "alice@example.com" 0 "morning" none] := by
  constructor
  · decide
  · decide

/-- C8 (amended).  If `weekends_off` is set and the weekday of the
*server's* local clock at the evaluation instant is Saturday or Sunday, a
due reminder produces no notification attempt, neither email nor push. -/
theorem checkUserAndNotify_weekend_skip (env : NotifyEnv) (tod : String) (p : PrefsRow)
    (hp : env.prefs = some p) (hw : p.weekends_off ≠ 0)
    (hd : jsGetDay env.serverOffsetMin env.nowMs = 0 ∨
      jsGetDay env.serverOffsetMin env.nowMs = 6) :
    checkUserAndNotify env tod = [] := by
  cases hu : env.user with
  | none => simp only [checkUserAndNotify, hu, hp]
  | some u =>
    simp only [checkUserAndNotify, hu, hp]
    rw [if_pos ⟨hw, hd⟩]

/-- C8 amended-claim witness: a Saturday on the server clock with
`weekends_off` set yields no attempts. -/
theorem checkUserAndNotify_weekend_skip_witness :
    checkUserAndNotify
      { user := some ⟨"u1", "alice", "tok", "alice@example.com"⟩
        prefs := some ⟨1, 1, 1, 0⟩
        hasCommitted := false
        cachedStreak := none
        repos := []
        excludedRepos := []
        rand := fun _ => 0
        nowMs := 172800000
        serverOffsetMin := 0 } "morning" = [] :=
  checkUserAndNotify_weekend_skip _ "morning" ⟨1, 1, 1, 0⟩ rfl (by decide)
    (Or.inr (by decide))

/-! ## Helper lemmas: streak invariant -/

/-- In a date-descending list, the element `a` is exactly one day after `b`. -/
def ConsecDesc (a b : ContributionDay) : Prop := a.date = b.date + 1

/-- In a chronological list, the element `b` is exactly one day after `a`. -/
def ConsecAsc (a b : ContributionDay) : Prop := b.date = a.date + 1

theorem diffDaysOf_eq (a b : ContributionDay) : diffDaysOf a b = a.date - b.date := by
  show ((a.date * msPerDay) - b.date * msPerDay).fdiv msPerDay = a.date - b.date
  rw [← sub_mul, Int.mul_fdiv_cancel _ (by decide : msPerDay ≠ 0)]

/-- Once the current-streak scan is running with a positive count, further
increments come from a prefix of consecutive counting days chained to the
previous element. -/
theorem csAux_pos (rest : List ContributionDay) :
    ∀ (prev : ContributionDay) (cs : Nat), 0 < cs →
      ∃ j B s, csAux prev cs rest = cs + j ∧ rest = B ++ s ∧ B.length = j ∧
        (∀ e ∈ B, 0 < e.count) ∧ List.Chain' ConsecDesc (prev :: B) := by
  induction rest with
  | nil =>
    intro prev cs _
    exact ⟨0, [], [], rfl, rfl, rfl, by simp, by simp⟩
  | cons day rest ih =>
    intro prev cs hcs
    by_cases hc : 0 < day.count
    · by_cases hdiff : diffDaysOf prev day = 1
      · obtain ⟨j, B, s, h1, h2, h3, h4, h5⟩ := ih day (cs + 1) (Nat.succ_pos cs)
        refine ⟨j + 1, day :: B, s, ?_, ?_, ?_, ?_, ?_⟩
        · simp only [csAux, if_pos hc, if_pos hdiff, h1]
          omega
        · rw [h2]; rfl
        · simp [h3]
        · intro e he
          rcases List.mem_cons.mp he with rfl | he'
          · exact hc
          · exact h4 e he'
        · rw [List.chain'_cons]
          refine ⟨?_, h5⟩
          have := diffDaysOf_eq prev day
          rw [this] at hdiff
          show prev.date = day.date + 1
          omega
      · exact ⟨0, [], day :: rest, by simp [csAux, if_pos hc, if_neg hdiff], rfl, rfl,
          by simp, by simp⟩
    · refine ⟨0, [], day :: rest, ?_, rfl, rfl, by simp, by simp⟩
      simp [csAux, hc, hcs]

/-- Before the current-streak scan has started (accumulator 0), its final
value is the length of some contiguous block of consecutive counting days. -/
theorem csAux_zero (rest : List ContributionDay) :
    ∀ prev : ContributionDay,
      ∃ j p B s, csAux prev 0 rest = j ∧ rest = p ++ B ++ s ∧ B.length = j ∧
        (∀ e ∈ B, 0 < e.count) ∧ List.Chain' ConsecDesc B := by
  induction rest with
  | nil =>
    intro prev
    exact ⟨0, [], [], [], rfl, rfl, rfl, by simp, by simp⟩
  | cons day rest ih =>
    intro prev
    by_cases hc : 0 < day.count
    · by_cases hdiff : diffDaysOf prev day = 1
      · obtain ⟨j, B, s, h1, h2, h3, h4, h5⟩ := csAux_pos rest day 1 Nat.one_pos
        refine ⟨1 + j, [], day :: B, s, ?_, ?_, ?_, ?_, h5⟩
        · simp only [csAux, if_pos hc, if_pos hdiff]
          exact h1
        · simp [h2]
        · simp [h3]; omega
        · intro e he
          rcases List.mem_cons.mp he with rfl | he'
          · exact hc
          · exact h4 e he'
      · exact ⟨0, [], [], day :: rest, by simp [csAux, if_pos hc, if_neg hdiff], by simp,
          rfl, by simp, by simp⟩
    · obtain ⟨j, p, B, s, h1, h2, h3, h4, h5⟩ := ih day
      refine ⟨j, day :: p, B, s, ?_, by simp [h2], h3, h4, h5⟩
      simpa [csAux, hc] using h1

/-- The current streak is the length of a contiguous block of consecutive
counting days of the descending-sorted list. -/
theorem currentStreak_block (sorted : List ContributionDay) (today yesterday : Int) :
    ∃ p B s, sorted = p ++ B ++ s ∧ B.length = currentStreakOf sorted today yesterday ∧
      (∀ e ∈ B, 0 < e.count) ∧ List.Chain' ConsecDesc B := by
  cases sorted with
  | nil => exact ⟨[], [], [], rfl, rfl, by simp, by simp⟩
  | cons day rest =>
    by_cases hc : 0 < day.count
    · by_cases hstart : day.date = today ∨ day.date = yesterday
      · obtain ⟨j, B, s, h1, h2, h3, h4, h5⟩ := csAux_pos rest day 1 Nat.one_pos
        refine ⟨[], day :: B, s, by simp [h2], ?_, ?_, ?_⟩
        · simp only [currentStreakOf, if_pos hc, if_pos hstart, h1, List.length_cons, h3]
          omega
        · intro e he
          rcases List.mem_cons.mp he with rfl | he'
          · exact hc
          · exact h4 e he'
        · exact h5
      · obtain ⟨j, p, B, s, h1, h2, h3, h4, h5⟩ := csAux_zero rest day
        refine ⟨day :: p, B, s, by simp [h2], ?_, h4, h5⟩
        simp only [currentStreakOf, if_pos hc, if_neg hstart, h1, h3]
    · obtain ⟨j, p, B, s, h1, h2, h3, h4, h5⟩ := csAux_zero rest day
      refine ⟨day :: p, B, s, by simp [h2], ?_, h4, h5⟩
      simp only [currentStreakOf, if_neg hc, h1, h3]

/-- The longest-streak accumulator never decreases. -/
theorem lsAux_ge (rest : List ContributionDay) :
    ∀ (prev : ContributionDay) (temp longest : Nat),
      longest ≤ lsAux prev temp longest rest := by
  induction rest with
  | nil => intro prev temp longest; exact Nat.le_refl _
  | cons day rest ih =>
    intro prev temp longest
    by_cases hc : 0 < day.count
    · simp only [lsAux, if_pos hc]
      exact Nat.le_trans (Nat.le_max_left _ _) (ih day _ _)
    · simp only [lsAux, if_neg hc]
      exact ih day 0 longest

/-- Running the longest-streak scan through a block of consecutive counting
days chained to a counting `prev` pushes the accumulator past
`temp + B.length`. -/
theorem lsAux_block (B : List ContributionDay) :
    ∀ (s : List ContributionDay) (prev : ContributionDay) (temp longest : Nat),
      (∀ e ∈ B, 0 < e.count) → List.Chain' ConsecAsc (prev :: B) → 0 < prev.count →
      temp ≤ longest →
      max longest (temp + B.length) ≤ lsAux prev temp longest (B ++ s) := by
  induction B with
  | nil =>
    intro s prev temp longest _ _ _ htl
    rw [List.length_nil, Nat.add_zero, Nat.max_eq_left htl, List.nil_append]
    exact lsAux_ge s prev temp longest
  | cons day B ih =>
    intro s prev temp longest hcounts hchain hprev htl
    have hc : 0 < day.count := hcounts day (List.mem_cons_self _ _)
    have hstep : ConsecAsc prev day := (List.chain'_cons.mp hchain).1
    have hchain' : List.Chain' ConsecAsc (day :: B) := (List.chain'_cons.mp hchain).2
    have hcond : diffDaysOf day prev = 1 ∧ 0 < prev.count := by
      refine ⟨?_, hprev⟩
      rw [diffDaysOf_eq]
      have : day.date = prev.date + 1 := hstep
      omega
    simp only [List.cons_append, lsAux, if_pos hc, if_pos hcond]
    have hrec := ih s day (temp + 1) (max longest (temp + 1))
      (fun e he => hcounts e (List.mem_cons_of_mem _ he)) hchain' hc
      (Nat.le_max_right _ _)
    refine Nat.le_trans ?_ hrec
    have h1 : temp + (day :: B).length = (temp + 1) + B.length := by
      simp [List.length_cons]; omega
    rw [h1]
    exact Nat.max_le.mpr ⟨Nat.le_trans (Nat.le_max_left _ _) (Nat.le_max_left _ _),
      Nat.le_max_right _ _⟩

/-- The longest-streak scan of any list containing a contiguous block of
consecutive counting days is at least the block's length. -/
theorem lsAux_through (p : List ContributionDay) :
    ∀ (B s : List ContributionDay) (prev : ContributionDay) (temp longest : Nat),
      B ≠ [] → (∀ e ∈ B, 0 < e.count) → List.Chain' ConsecAsc B →
      B.length ≤ lsAux prev temp longest (p ++ B ++ s) := by
  induction p with
  | nil =>
    intro B s prev temp longest hne hcounts hchain
    cases B with
    | nil => exact absurd rfl hne
    | cons day B' =>
      have hc : 0 < day.count := hcounts day (List.mem_cons_self _ _)
      have hcounts' : ∀ e ∈ B', 0 < e.count := fun e he => hcounts e (List.mem_cons_of_mem _ he)
      simp only [List.nil_append, List.cons_append, lsAux, if_pos hc]
      by_cases hcond : diffDaysOf day prev = 1 ∧ 0 < prev.count
      · rw [if_pos hcond]
        have := lsAux_block B' s day (temp + 1) (max longest (temp + 1)) hcounts' hchain hc
          (Nat.le_max_right _ _)
        refine Nat.le_trans ?_ this
        have : (day :: B').length ≤ (temp + 1) + B'.length := by
          simp [List.length_cons]; omega
        exact Nat.le_trans this (Nat.le_max_right _ _)
      · rw [if_neg hcond]
        have := lsAux_block B' s day 1 (max longest 1) hcounts' hchain hc
          (Nat.le_max_right _ _)
        refine Nat.le_trans ?_ this
        have : (day :: B').length ≤ 1 + B'.length := by simp [List.length_cons]; omega
        exact Nat.le_trans this (Nat.le_max_right _ _)
  | cons a p ih =>
    intro B s prev temp longest hne hcounts hchain
    by_cases hc : 0 < a.count
    · simp only [List.cons_append, lsAux, if_pos hc]
      exact ih B s a _ _ hne hcounts hchain
    · simp only [List.cons_append, lsAux, if_neg hc]
      exact ih B s a 0 longest hne hcounts hchain

/-- Top-level form of the previous lemma, for `longestStreakOf`. -/
theorem longestStreakOf_ge_block (p B s : List ContributionDay) (hne : B ≠ [])
    (hcounts : ∀ e ∈ B, 0 < e.count) (hchain : List.Chain' ConsecAsc B) :
    B.length ≤ longestStreakOf (p ++ B ++ s) := by
  cases p with
  | nil =>
    cases B with
    | nil => exact absurd rfl hne
    | cons day B' =>
      have hc : 0 < day.count := hcounts day (List.mem_cons_self _ _)
      have hcounts' : ∀ e ∈ B', 0 < e.count := fun e he => hcounts e (List.mem_cons_of_mem _ he)
      simp only [List.nil_append, List.cons_append, longestStreakOf, if_pos hc]
      have := lsAux_block B' s day 1 (max 0 1) hcounts' hchain hc (by decide)
      refine Nat.le_trans ?_ this
      have h1 : (day :: B').length ≤ 1 + B'.length := by simp [List.length_cons]; omega
      exact Nat.le_trans h1 (Nat.le_max_right _ _)
  | cons a p' =>
    have hsub : B.length ≤ lsAux a 1 (max 0 1) (p' ++ B ++ s) ∧
        B.length ≤ lsAux a 0 0 (p' ++ B ++ s) :=
      ⟨lsAux_through p' B s a 1 (max 0 1) hne hcounts hchain,
        lsAux_through p' B s a 0 0 hne hcounts hchain⟩
    by_cases hc : 0 < a.count
    · simp only [List.cons_append, longestStreakOf, if_pos hc]
      exact hsub.1
    · simp only [List.cons_append, longestStreakOf, if_neg hc]
      exact hsub.2

theorem dateTime_le_iff {a b : ContributionDay} :
    dateTime a ≤ dateTime b ↔ a.date ≤ b.date := by
  unfold dateTime
  exact mul_le_mul_right (by decide : (0 : Int) < msPerDay)

/-- With pairwise-distinct dates, the chronological sort is the reversal of
the date-descending sort: both are the unique strictly-date-sorted
arrangement of the same elements. -/
theorem sortAsc_eq_reverse_sortDesc (l : List ContributionDay)
    (hnd : l.Pairwise (fun a b => a.date ≠ b.date)) :
    l.insertionSort (fun a b => dateTime a ≤ dateTime b)
      = (l.insertionSort (fun a b => dateTime b ≤ dateTime a)).reverse := by
  haveI : IsTotal ContributionDay (fun a b => dateTime a ≤ dateTime b) :=
    ⟨fun a b => le_total _ _⟩
  haveI : IsTrans ContributionDay (fun a b => dateTime a ≤ dateTime b) :=
    ⟨fun _ _ _ h1 h2 => le_trans h1 h2⟩
  haveI : IsTotal ContributionDay (fun a b => dateTime b ≤ dateTime a) :=
    ⟨fun a b => le_total _ _⟩
  haveI : IsTrans ContributionDay (fun a b => dateTime b ≤ dateTime a) :=
    ⟨fun _ _ _ h1 h2 => le_trans h2 h1⟩
  haveI : IsAntisymm ContributionDay (fun a b => a.date < b.date) :=
    ⟨fun _ _ h1 h2 => absurd h2 (lt_asymm h1)⟩
  have hpA := List.perm_insertionSort (fun a b : ContributionDay => dateTime a ≤ dateTime b) l
  have hpD := List.perm_insertionSort (fun a b : ContributionDay => dateTime b ≤ dateTime a) l
  have hsA := List.sorted_insertionSort (fun a b : ContributionDay => dateTime a ≤ dateTime b) l
  have hsD := List.sorted_insertionSort (fun a b : ContributionDay => dateTime b ≤ dateTime a) l
  have hndA : (l.insertionSort (fun a b => dateTime a ≤ dateTime b)).Pairwise
      (fun a b => a.date ≠ b.date) :=
    (hpA.pairwise_iff (fun h => Ne.symm h)).mpr hnd
  have hndD : (l.insertionSort (fun a b => dateTime b ≤ dateTime a)).Pairwise
      (fun a b => a.date ≠ b.date) :=
    (hpD.pairwise_iff (fun h => Ne.symm h)).mpr hnd
  have hltA : (l.insertionSort (fun a b => dateTime a ≤ dateTime b)).Pairwise
      (fun a b => a.date < b.date) :=
    (hsA.and hndA).imp (fun h => lt_of_le_of_ne (dateTime_le_iff.mp h.1) h.2)
  have hltD : (l.insertionSort (fun a b => dateTime b ≤ dateTime a)).reverse.Pairwise
      (fun a b => a.date < b.date) := by
    rw [List.pairwise_reverse]
    exact (hsD.and hndD).imp (fun h => lt_of_le_of_ne (dateTime_le_iff.mp h.1) (Ne.symm h.2))
  have hperm : List.Perm (l.insertionSort (fun a b => dateTime a ≤ dateTime b))
      (l.insertionSort (fun a b => dateTime b ≤ dateTime a)).reverse :=
    hpA.trans (hpD.symm.trans (List.reverse_perm _).symm)
  exact List.eq_of_perm_of_sorted hperm hltA hltD

/-! ## Claim theorems: streak invariant -/

/-- C4.  For every contribution-day sequence (one entry per calendar day,
i.e. pairwise-distinct dates, as the data model specifies), the computed
streaks satisfy `0 ≤ currentStreak`, `0 ≤ longestStreak` and
`currentStreak ≤ longestStreak`. -/
theorem computeStreaks_longest_ge_current (contributions : List ContributionDay)
    (nowMs : Int) (hnd : contributions.Pairwise (fun a b => a.date ≠ b.date)) :
    0 ≤ (computeStreaks contributions nowMs).currentStreak ∧
      0 ≤ (computeStreaks contributions nowMs).longestStreak ∧
      (computeStreaks contributions nowMs).currentStreak
        ≤ (computeStreaks contributions nowMs).longestStreak := by
  refine ⟨Nat.zero_le _, Nat.zero_le _, ?_⟩
  show currentStreakOf (contributions.insertionSort (fun a b => dateTime b ≤ dateTime a))
      (nowMs.fdiv msPerDay) ((nowMs - msPerDay).fdiv msPerDay)
    ≤ longestStreakOf (contributions.insertionSort (fun a b => dateTime a ≤ dateTime b))
  obtain ⟨p, B, s, hsplit, hlen, hcounts, hchain⟩ :=
    currentStreak_block (contributions.insertionSort (fun a b => dateTime b ≤ dateTime a))
      (nowMs.fdiv msPerDay) ((nowMs - msPerDay).fdiv msPerDay)
  rw [← hlen, sortAsc_eq_reverse_sortDesc contributions hnd, hsplit]
  by_cases hB : B = []
  · simp [hB]
  · rw [List.reverse_append, List.reverse_append, ← List.append_assoc]
    have hrevchain : List.Chain' ConsecAsc B.reverse := by
      rw [List.chain'_reverse]
      exact hchain
    have := longestStreakOf_ge_block s.reverse B.reverse p.reverse
      (by simpa using hB) (fun e he => hcounts e (List.mem_reverse.mp he)) hrevchain
    calc B.length = B.reverse.length := (List.length_reverse _).symm
    _ ≤ longestStreakOf (s.reverse ++ B.reverse ++ p.reverse) := this

/-- C4 witness: a concrete two-day sequence. -/
theorem computeStreaks_longest_ge_current_witness :
    ([⟨19723, 1⟩, ⟨19724, 1⟩] : List ContributionDay).Pairwise
        (fun a b => a.date ≠ b.date) ∧
      (0 ≤ (computeStreaks [⟨19723, 1⟩, ⟨19724, 1⟩] 1704240000000).currentStreak ∧
        0 ≤ (computeStreaks [⟨19723, 1⟩, ⟨19724, 1⟩] 1704240000000).longestStreak ∧
        (computeStreaks [⟨19723, 1⟩, ⟨19724, 1⟩] 1704240000000).currentStreak
          ≤ (computeStreaks [⟨19723, 1⟩, ⟨19724, 1⟩] 1704240000000).longestStreak) :=
  ⟨by decide, computeStreaks_longest_ge_current [⟨19723, 1⟩, ⟨19724, 1⟩] 1704240000000
    (by decide)⟩
